import Mathlib

/-
Verification of the provider abstraction layer of the dialect repository
(dialect/providers/base.py) against its natural-language specification.

Python strings are modelled as Lean `String` (chars as `List Char`), Python
dicts as insertion-ordered association lists (the code only ever inserts a
key when it is absent, so first-match lookup agrees with dict lookup), and
the merged alias table `{**LANG_ALIASES, **self.lang_aliases}` as an explicit
parameter `aliases` (the global `LANG_ALIASES` constant lives in
dialect/define.py, outside the sources verified here, and providers may
override `lang_aliases`, so theorems quantify over the merged table).
-/

/-- Error codes of the ProviderErrorCode enum (base.py). -/
inductive ProviderErrorCode where
  | UNEXPECTED
  | NETWORK
  | EMPTY
  | API_KEY_REQUIRED
  | API_KEY_INVALID
  | INVALID_LANG_CODE
  | BATCH_SIZE_EXCEEDED
  | CHARACTERS_LIMIT_EXCEEDED
  | SERVICE_LIMIT_REACHED
  | TRANSLATION_FAILED
  | TTS_FAILED
deriving DecidableEq, Repr

/-- Python str.split(sep) for a one-character separator: "".split("-") == [""],
"a-b".split("-") == ["a", "b"], "-".split("-") == ["", ""]. -/
def splitChar (sep : Char) : List Char → List (List Char)
  | [] => [[]]
  | c :: cs =>
    if c = sep then
      [] :: splitChar sep cs
    else
      match splitChar sep cs with
      | [] => [[c]]
      | g :: gs => (c :: g) :: gs

/-- Python str.capitalize restricted to ASCII: first char upper-cased, rest lower-cased. -/
def pyCapitalize : List Char → List Char
  | [] => []
  | c :: cs => c.toUpper :: cs.map Char.toLower

/-- The first stage of normalize_lang_code: code.replace(underscore, hyphen).lower(). -/
def lowered (cs : List Char) : List Char :=
  (cs.map (fun c => if c = '_' then '-' else c)).map Char.toLower

/-- Python dict lookup d.get(k) over an insertion-ordered association list. -/
def dictGet : List (String × String) → String → Option String
  | [], _ => none
  | p :: ps, code => if p.1 = code then some p.2 else dictGet ps code

/- Character-level facts about Char.toLower / Char.toUpper (ASCII). -/

theorem char_toNat_ofNat {n : Nat} (h : n.isValidChar) : (Char.ofNat n).toNat = n := by
  unfold Char.ofNat
  rw [dif_pos h]
  rfl

theorem char_toNat_inj {c d : Char} (h : c.toNat = d.toNat) : c = d :=
  Char.eq_of_val_eq (UInt32.toNat.inj h)

theorem char_ofNat_toNat (c : Char) : Char.ofNat c.toNat = c := by
  apply char_toNat_inj
  exact char_toNat_ofNat c.valid

theorem char_toLower_of_upper {c : Char} (h : 65 ≤ c.toNat ∧ c.toNat ≤ 90) :
    c.toLower = Char.ofNat (c.toNat + 32) := by
  unfold Char.toLower
  rw [if_pos ⟨h.1, h.2⟩]

theorem char_toLower_of_not_upper {c : Char} (h : ¬(65 ≤ c.toNat ∧ c.toNat ≤ 90)) :
    c.toLower = c := by
  unfold Char.toLower
  rw [if_neg]
  intro hc
  exact h ⟨hc.1, hc.2⟩

theorem char_toUpper_of_lower {c : Char} (h : 97 ≤ c.toNat ∧ c.toNat ≤ 122) :
    c.toUpper = Char.ofNat (c.toNat - 32) := by
  unfold Char.toUpper
  rw [if_pos ⟨h.1, h.2⟩]

theorem char_toUpper_of_not_lower {c : Char} (h : ¬(97 ≤ c.toNat ∧ c.toNat ≤ 122)) :
    c.toUpper = c := by
  unfold Char.toUpper
  rw [if_neg]
  intro hc
  exact h ⟨hc.1, hc.2⟩

theorem char_valid_of_le {n : Nat} (h : n ≤ 122) : n.isValidChar :=
  Or.inl (by omega)

theorem char_toNat_toLower_of_upper {c : Char} (h : 65 ≤ c.toNat ∧ c.toNat ≤ 90) :
    c.toLower.toNat = c.toNat + 32 := by
  rw [char_toLower_of_upper h]
  exact char_toNat_ofNat (char_valid_of_le (by omega))

theorem char_toNat_toUpper_of_lower {c : Char} (h : 97 ≤ c.toNat ∧ c.toNat ≤ 122) :
    c.toUpper.toNat = c.toNat - 32 := by
  rw [char_toUpper_of_lower h]
  exact char_toNat_ofNat (char_valid_of_le (by omega))

theorem char_toLower_toLower (c : Char) : c.toLower.toLower = c.toLower := by
  by_cases h : 65 ≤ c.toNat ∧ c.toNat ≤ 90
  · apply char_toLower_of_not_upper
    rw [char_toNat_toLower_of_upper h]
    omega
  · rw [char_toLower_of_not_upper h, char_toLower_of_not_upper h]

theorem char_toLower_toUpper (c : Char) : c.toUpper.toLower = c.toLower := by
  by_cases h : 97 ≤ c.toNat ∧ c.toNat ≤ 122
  · rw [char_toLower_of_upper (c := c.toUpper)
      (by rw [char_toNat_toUpper_of_lower h]; omega)]
    rw [char_toNat_toUpper_of_lower h]
    rw [char_toLower_of_not_upper (by omega)]
    have : c.toNat - 32 + 32 = c.toNat := by omega
    rw [this, char_ofNat_toNat]
  · rw [char_toUpper_of_not_lower h]

theorem char_toLower_eq_iff (c : Char) (d : Char)
    (hd : ¬(97 ≤ d.toNat ∧ d.toNat ≤ 122)) : c.toLower = d → c = d := by
  intro h
  by_cases hu : 65 ≤ c.toNat ∧ c.toNat ≤ 90
  · exfalso
    have := congrArg Char.toNat h
    rw [char_toNat_toLower_of_upper hu] at this
    exact hd (by omega)
  · rw [char_toLower_of_not_upper hu] at h
    exact h

theorem char_toLower_eq_underscore {c : Char} (h : c.toLower = '_') : c = '_' :=
  char_toLower_eq_iff c '_' (by decide) h

theorem char_toLower_eq_dash {c : Char} (h : c.toLower = '-') : c = '-' :=
  char_toLower_eq_iff c '-' (by decide) h

theorem char_toUpper_eq_iff (c : Char) (d : Char)
    (hd : ¬(65 ≤ d.toNat ∧ d.toNat ≤ 90)) : c.toUpper = d → c = d := by
  intro h
  by_cases hl : 97 ≤ c.toNat ∧ c.toNat ≤ 122
  · exfalso
    have := congrArg Char.toNat h
    rw [char_toNat_toUpper_of_lower hl] at this
    exact hd (by omega)
  · rw [char_toUpper_of_not_lower hl] at h
    exact h

theorem char_toUpper_eq_underscore {c : Char} (h : c.toUpper = '_') : c = '_' :=
  char_toUpper_eq_iff c '_' (by decide) h

theorem char_toUpper_eq_dash {c : Char} (h : c.toUpper = '-') : c = '-' :=
  char_toUpper_eq_iff c '-' (by decide) h

/- The language code normalizer (BaseProvider.normalize_lang_code, base.py:323-355). -/

/-- Structural stage of normalize_lang_code: replace underscore separators by
hyphens and lowercase the code; when it splits into exactly two hyphen-separated
parts, capitalize a 4-char second part (ISO 15924 script), upper-case a 2-char
second part (ISO 3166-1 country), leave other lengths as-is, and rejoin. -/
def structuralNormChars (cs : List Char) : List Char :=
  match splitChar '-' (lowered cs) with
  | [a, b] =>
    if b.length = 4 then a ++ '-' :: pyCapitalize b
    else if b.length = 2 then a ++ '-' :: b.map Char.toUpper
    else a ++ '-' :: b
  | _ => lowered cs

/-- String-level wrapper of the structural stage. -/
def structuralNorm (code : String) : String :=
  ⟨structuralNormChars code.data⟩

/-- BaseProvider.normalize_lang_code: structural normalization followed by a
lookup in the merged alias table (a parameter here, see the header comment). -/
def normalize_lang_code (aliases : List (String × String)) (code : String) : String :=
  match dictGet aliases (structuralNorm code) with
  | some target => target
  | none => structuralNorm code

/- splitChar facts. -/

theorem splitChar_ne_nil (sep : Char) (cs : List Char) : splitChar sep cs ≠ [] := by
  cases cs with
  | nil => simp [splitChar]
  | cons c cs =>
    unfold splitChar
    by_cases h : c = sep
    · simp [h]
    · rw [if_neg h]
      cases hs : splitChar sep cs <;> simp

theorem splitChar_eq_single {sep : Char} {cs a : List Char}
    (h : splitChar sep cs = [a]) : cs = a := by
  induction cs generalizing a with
  | nil =>
    unfold splitChar at h
    injection h
  | cons c cs ih =>
    unfold splitChar at h
    by_cases hc : c = sep
    · rw [if_pos hc] at h
      injection h with _ h2
      exact absurd h2 (splitChar_ne_nil sep cs)
    · rw [if_neg hc] at h
      cases hs : splitChar sep cs with
      | nil => exact absurd hs (splitChar_ne_nil sep cs)
      | cons g gs =>
        rw [hs] at h
        injection h with h1 h2
        subst h2
        rw [ih (a := g) hs]
        exact h1

theorem splitChar_eq_pair {sep : Char} {cs a b : List Char}
    (h : splitChar sep cs = [a, b]) : cs = a ++ sep :: b := by
  induction cs generalizing a with
  | nil =>
    unfold splitChar at h
    injection h with _ h2
    exact absurd h2 (by simp)
  | cons c cs ih =>
    unfold splitChar at h
    by_cases hc : c = sep
    · rw [if_pos hc] at h
      injection h with h1 h2
      rw [← h1, splitChar_eq_single h2, hc]
      rfl
    · rw [if_neg hc] at h
      cases hs : splitChar sep cs with
      | nil => exact absurd hs (splitChar_ne_nil sep cs)
      | cons g gs =>
        rw [hs] at h
        injection h with h1 h2
        subst h2
        rw [← h1, ih (a := g) hs]
        rfl

/- Canonical character lists: every char is toLower-fixed and is not an underscore.
The output of `lowered` always satisfies this. -/

def CanonChars (l : List Char) : Prop := ∀ c ∈ l, c.toLower = c ∧ c ≠ '_'

theorem repl_ne_underscore (c : Char) : (if c = '_' then '-' else c) ≠ '_' := by
  by_cases h : c = '_' <;> simp [h]

theorem canon_lowered (l : List Char) : CanonChars (lowered l) := by
  intro c hc
  simp only [lowered, List.map_map, List.mem_map] at hc
  obtain ⟨x, _, rfl⟩ := hc
  constructor
  · exact char_toLower_toLower _
  · intro h
    exact repl_ne_underscore x (char_toLower_eq_underscore h)

theorem canon_sub {l m : List Char} (h : CanonChars l) (hsub : ∀ c ∈ m, c ∈ l) :
    CanonChars m :=
  fun c hc => h c (hsub c hc)

theorem lowered_eq_of_canon {l : List Char} (h : CanonChars l) : lowered l = l := by
  induction l with
  | nil => rfl
  | cons c cs ih =>
    have hc := h c (List.mem_cons_self c cs)
    show Char.toLower (if c = '_' then '-' else c) :: lowered cs = c :: cs
    rw [if_neg hc.2, hc.1, ih (fun x hx => h x (List.mem_cons_of_mem c hx))]

theorem lowered_append (a b : List Char) : lowered (a ++ b) = lowered a ++ lowered b := by
  simp [lowered]

theorem lowered_dash_cons (l : List Char) : lowered ('-' :: l) = '-' :: lowered l := by
  show Char.toLower (if '-' = '_' then '-' else '-') :: lowered l = '-' :: lowered l
  norm_num
  decide

theorem map_toLower_of_canon {l : List Char} (h : CanonChars l) :
    l.map Char.toLower = l := by
  induction l with
  | nil => rfl
  | cons c cs ih =>
    show c.toLower :: cs.map Char.toLower = c :: cs
    rw [(h c (List.mem_cons_self c cs)).1, ih (fun x hx => h x (List.mem_cons_of_mem c hx))]

theorem lowered_map_toUpper_of_canon {l : List Char} (h : CanonChars l) :
    lowered (l.map Char.toUpper) = l := by
  induction l with
  | nil => rfl
  | cons c cs ih =>
    have hc := h c (List.mem_cons_self c cs)
    show Char.toLower (if c.toUpper = '_' then '-' else c.toUpper) :: lowered (cs.map Char.toUpper)
      = c :: cs
    rw [if_neg (fun hu => hc.2 (char_toUpper_eq_underscore hu))]
    rw [char_toLower_toUpper, hc.1, ih (fun x hx => h x (List.mem_cons_of_mem c hx))]

theorem lowered_pyCapitalize_of_canon {l : List Char} (h : CanonChars l) :
    lowered (pyCapitalize l) = l := by
  cases l with
  | nil => rfl
  | cons c cs =>
    have hc := h c (List.mem_cons_self c cs)
    have hcs : CanonChars cs := fun x hx => h x (List.mem_cons_of_mem c hx)
    show Char.toLower (if c.toUpper = '_' then '-' else c.toUpper) :: lowered (cs.map Char.toLower)
      = c :: cs
    rw [if_neg (fun hu => hc.2 (char_toUpper_eq_underscore hu))]
    rw [char_toLower_toUpper, hc.1, map_toLower_of_canon hcs, lowered_eq_of_canon hcs]

/- Idempotence of the structural stage. -/

theorem lowered_structuralNormChars (l : List Char) :
    lowered (structuralNormChars l) = lowered l := by
  unfold structuralNormChars
  split
  · next a b heq =>
    have heq' : lowered l = a ++ '-' :: b := splitChar_eq_pair heq
    have hca : CanonChars a :=
      canon_sub (canon_lowered l) (by rw [heq']; intro c hc; exact List.mem_append_left _ hc)
    have hcb : CanonChars b :=
      canon_sub (canon_lowered l)
        (by rw [heq']; intro c hc; exact List.mem_append_right _ (List.mem_cons_of_mem _ hc))
    by_cases h4 : b.length = 4
    · rw [if_pos h4, lowered_append, lowered_dash_cons, lowered_eq_of_canon hca,
        lowered_pyCapitalize_of_canon hcb]
      exact heq'.symm
    · by_cases h2 : b.length = 2
      · rw [if_neg h4, if_pos h2, lowered_append, lowered_dash_cons, lowered_eq_of_canon hca,
          lowered_map_toUpper_of_canon hcb]
        exact heq'.symm
      · rw [if_neg h4, if_neg h2, lowered_append, lowered_dash_cons, lowered_eq_of_canon hca,
          lowered_eq_of_canon hcb]
        exact heq'.symm
  · next _ =>
    exact lowered_eq_of_canon (canon_lowered l)

theorem structuralNormChars_idem (l : List Char) :
    structuralNormChars (structuralNormChars l) = structuralNormChars l := by
  set s := structuralNormChars l with hs
  conv_lhs => unfold structuralNormChars
  rw [show lowered s = lowered l from hs ▸ lowered_structuralNormChars l]
  rw [hs]
  rfl

theorem structuralNorm_idem (code : String) :
    structuralNorm (structuralNorm code) = structuralNorm code :=
  congrArg (fun l => (⟨l⟩ : String)) (structuralNormChars_idem code.data)

/- Idempotence of full normalization when every alias target is itself normalized. -/

theorem dictGet_mem {al : List (String × String)} {k v : String}
    (h : dictGet al k = some v) : (k, v) ∈ al := by
  induction al with
  | nil => cases h
  | cons p ps ih =>
    cases p with
    | mk a b =>
      unfold dictGet at h
      by_cases hp : a = k
      · rw [if_pos hp] at h
        injection h with h1
        rw [← hp, ← h1]
        exact List.mem_cons_self _ _
      · rw [if_neg hp] at h
        exact List.mem_cons_of_mem _ (ih h)

theorem normalize_idem_of_targets {aliases : List (String × String)}
    (h : ∀ p ∈ aliases, normalize_lang_code aliases p.2 = p.2) (x : String) :
    normalize_lang_code aliases (normalize_lang_code aliases x) = normalize_lang_code aliases x := by
  cases hg : dictGet aliases (structuralNorm x) with
  | some v =>
    have hx : normalize_lang_code aliases x = v := by
      unfold normalize_lang_code
      rw [hg]
    rw [hx]
    exact h (structuralNorm x, v) (dictGet_mem hg)
  | none =>
    have hx : normalize_lang_code aliases x = structuralNorm x := by
      unfold normalize_lang_code
      rw [hg]
    rw [hx]
    unfold normalize_lang_code
    rw [structuralNorm_idem, hg]

/- Language Registry state (BaseProvider.__init__ and add_lang, base.py:94-111, 357-383). -/

/-- Per-provider registry state: languages and tts_languages sequences, the
nonstandard (canonical to original) code map and the provider-supplied
language names, both insertion-ordered with first-write-wins inserts. -/
structure ProviderState where
  languages : List String
  tts_languages : List String
  nonstandard_langs : List (String × String)
  languages_names : List (String × String)
deriving DecidableEq, Repr

/-- Fresh provider registry state, as set up in BaseProvider.__init__. -/
def emptyProviderState : ProviderState :=
  { languages := [], tts_languages := [], nonstandard_langs := [], languages_names := [] }

/-- BaseProvider.add_lang: normalize the code; append it to languages when
trans, to tts_languages when tts; record the original code when normalization
changed it and no entry exists; record the provider name when given and no
name exists. The four mutations of the source act on distinct fields, so they
are written as one record update. -/
def add_lang (aliases : List (String × String)) (st : ProviderState)
    (original_code : String) (name : Option String) (trans tts : Bool) : ProviderState :=
  let code := normalize_lang_code aliases original_code
  { languages := if trans then st.languages ++ [code] else st.languages
    tts_languages := if tts then st.tts_languages ++ [code] else st.tts_languages
    nonstandard_langs :=
      if code ≠ original_code ∧ dictGet st.nonstandard_langs code = none then
        st.nonstandard_langs ++ [(code, original_code)]
      else st.nonstandard_langs
    languages_names :=
      match name with
      | some n =>
        if dictGet st.languages_names code = none then
          st.languages_names ++ [(code, n)]
        else st.languages_names
      | none => st.languages_names }

/-- One add_lang call: its arguments. -/
structure AddCmd where
  original : String
  name : Option String
  trans : Bool
  tts : Bool
deriving DecidableEq, Repr

/-- A sequence of add_lang calls applied to a fresh provider. -/
def runAdds (aliases : List (String × String)) (cmds : List AddCmd) : ProviderState :=
  cmds.foldl (fun st c => add_lang aliases st c.original c.name c.trans c.tts) emptyProviderState

/-- Result of BaseProvider.denormalize_lang: a bare string when exactly one
code was passed, else a tuple. -/
inductive Denorm where
  | single (code : String)
  | many (codes : List String)
deriving DecidableEq, Repr

/-- BaseProvider.denormalize_lang (base.py:385-401): look each code up in the
nonstandard map, falling back to the code itself; scalar result for exactly
one argument, tuple otherwise. -/
def denormalize_lang (nonstandard : List (String × String)) (codes : List String) : Denorm :=
  match codes with
  | [code] => .single ((dictGet nonstandard code).getD code)
  | _ => .many (codes.map fun code => (dictGet nonstandard code).getD code)

/-- BaseProvider.get_lang_name (base.py:403-414): the locale-name collaborator
(dialect.languages.get_lang_name, outside the sources verified here) is a
parameter; when it yields nothing, fall back to the provider-supplied name,
then to the code itself. -/
def get_lang_name (localeName : String → Option String)
    (languages_names : List (String × String)) (code : String) : String :=
  match localeName code with
  | none => (dictGet languages_names code).getD code
  | some name => name

/- Provider settings (BaseProvider.src_langs and reset_src_langs, base.py:267-278). -/

/-- The src_langs entry of BaseProvider.defaults (base.py:89). -/
def defaults_src_langs : List String := ["en", "fr", "es", "de"]

/-- The persistent store value behind the src-langs key; get_strv yields []
for an unset key, so unset and empty coincide. -/
structure SettingsStore where
  src_langs_stored : List String
deriving DecidableEq, Repr

/-- The src_langs property: the stored value, or the default when it is
empty/unset (Python or on a list). -/
def src_langs (store : SettingsStore) : List String :=
  match store.src_langs_stored with
  | [] => defaults_src_langs
  | l => l

/-- BaseProvider.reset_src_langs: writes the empty list back to the store. -/
def reset_src_langs (store : SettingsStore) : SettingsStore :=
  { store with src_langs_stored := [] }

/- URL composition (BaseProvider.format_url, base.py:297-321) and the
urllib.parse.urlencode encoding it relies on. -/

/-- Python str.startswith. -/
def pyStartsWith (s pre : String) : Bool :=
  List.isPrefixOf pre.data s.data

/-- Characters urllib never quotes (letters, digits and the marks). -/
def isUrlSafe (c : Char) : Bool :=
  c.isAlphanum || c = '_' || c = '.' || c = '-' || c = '~'

/-- Upper-case hexadecimal digit for a value below 16. -/
def hexDigit (n : Nat) : Char :=
  if n < 10 then Char.ofNat (48 + n) else Char.ofNat (55 + n)

/-- UTF-8 bytes of a character, as used by urllib before percent-encoding. -/
def utf8Bytes (c : Char) : List Nat :=
  let n := c.toNat
  if n < 128 then [n]
  else if n < 2048 then [192 + n / 64, 128 + n % 64]
  else if n < 65536 then [224 + n / 4096, 128 + (n / 64) % 64, 128 + n % 64]
  else [240 + n / 262144, 128 + (n / 4096) % 64, 128 + (n / 64) % 64, 128 + n % 64]

/-- Percent-encoding of one byte: a percent sign and two upper-case hex digits. -/
def percentEncodeByte (b : Nat) : List Char :=
  ['%', hexDigit (b / 16), hexDigit (b % 16)]

/-- urllib.parse.quote_plus on one character: spaces become plus, safe
characters stay, everything else is percent-encoded bytewise. -/
def quotePlusChar (c : Char) : List Char :=
  if c = ' ' then ['+']
  else if isUrlSafe c then [c]
  else (utf8Bytes c).flatMap percentEncodeByte

/-- urllib.parse.quote_plus on a string. -/
def quote_plus (s : String) : String :=
  ⟨s.data.flatMap quotePlusChar⟩

/-- Python sep.join over strings. -/
def pyJoin (sep : String) : List String → String
  | [] => ""
  | [s] => s
  | s :: rest => s ++ sep ++ pyJoin sep rest

/-- urllib.parse.urlencode: key=value pairs, quoted, joined with ampersands. -/
def urlencode (params : List (String × String)) : String :=
  pyJoin "&" (params.map fun p => quote_plus p.1 ++ "=" ++ quote_plus p.2)

/-- BaseProvider.format_url: ensure a leading slash on the path, pick http for
port-qualified localhost hosts or when the http flag is set (https otherwise),
and append a question mark plus the encoded query only when non-empty. -/
def format_url (url path : String) (params : List (String × String)) (http : Bool) : String :=
  let path := if pyStartsWith path "/" then path else "/" ++ path
  let protocol := if pyStartsWith url "localhost:" || http then "http://" else "https://"
  let params_str := urlencode params
  let params_str := if params_str = "" then params_str else "?" ++ params_str
  protocol ++ url ++ path ++ params_str

/- The translate entry checks (Provider Contract). -/

/-- Externally visible events of one translate call: failure callback with an
error code, a network interaction through the transport. -/
inductive TranslateEvent where
  | on_fail (code : ProviderErrorCode)
  | transport_request
deriving DecidableEq, Repr

/-- Modelled from the spec: the concrete providers implementing translate are
not under src/ (BaseProvider.translate, base.py:160-178, only declares the
operation and raises NotImplementedError). Per the spec, translate with empty
text fails with EMPTY before any network interaction; text longer than
chars_limit (when chars_limit is not the unlimited sentinel -1) fails with
CHARACTERS_LIMIT_EXCEEDED without invoking the transport; otherwise the
provider performs the network request. The result lists the observable
events of the call in order. -/
def translate_trace (chars_limit : Int) (text : String) : List TranslateEvent :=
  if text = "" then [.on_fail .EMPTY]
  else if chars_limit ≠ -1 ∧ chars_limit < (text.length : Int) then
    [.on_fail .CHARACTERS_LIMIT_EXCEEDED]
  else [.transport_request]

/- Association-list and registry helper lemmas. -/

theorem dictGet_append (m m2 : List (String × String)) (k : String) :
    dictGet (m ++ m2) k =
      match dictGet m k with
      | some v => some v
      | none => dictGet m2 k := by
  induction m with
  | nil => rfl
  | cons p ps ih =>
    by_cases hp : p.1 = k <;> simp [dictGet, hp, ih]

theorem add_lang_nonstandard_preserve {aliases : List (String × String)} {st : ProviderState}
    {o : String} {n : Option String} {tr tt : Bool} {k v : String}
    (h : dictGet st.nonstandard_langs k = some v) :
    dictGet (add_lang aliases st o n tr tt).nonstandard_langs k = some v := by
  simp only [add_lang]
  split
  · rw [dictGet_append, h]
  · exact h

theorem add_lang_nonstandard_other {aliases : List (String × String)} {st : ProviderState}
    {o : String} {n : Option String} {tr tt : Bool} {k : String}
    (hk : normalize_lang_code aliases o ≠ k) :
    dictGet (add_lang aliases st o n tr tt).nonstandard_langs k =
      dictGet st.nonstandard_langs k := by
  simp only [add_lang]
  split
  · rw [dictGet_append]
    cases hg : dictGet st.nonstandard_langs k with
    | some v => rfl
    | none => simp [dictGet, hk]
  · rfl

theorem add_lang_nonstandard_create (aliases : List (String × String)) (st : ProviderState)
    (o : String) (n : Option String) (tr tt : Bool)
    (hne : normalize_lang_code aliases o ≠ o)
    (habs : dictGet st.nonstandard_langs (normalize_lang_code aliases o) = none) :
    dictGet (add_lang aliases st o n tr tt).nonstandard_langs (normalize_lang_code aliases o)
      = some o := by
  simp only [add_lang]
  rw [if_pos ⟨hne, habs⟩, dictGet_append, habs]
  simp [dictGet]

theorem foldl_nonstandard_preserve (aliases : List (String × String)) (cmds : List AddCmd)
    {st : ProviderState} {k v : String}
    (h : dictGet st.nonstandard_langs k = some v) :
    dictGet ((cmds.foldl
        (fun st c => add_lang aliases st c.original c.name c.trans c.tts) st)).nonstandard_langs k
      = some v := by
  induction cmds generalizing st with
  | nil => exact h
  | cons c cs ih => exact ih (add_lang_nonstandard_preserve h)

theorem foldl_nonstandard_untouched {aliases : List (String × String)} {cmds : List AddCmd}
    {st : ProviderState} {k : String}
    (h : ∀ c ∈ cmds, normalize_lang_code aliases c.original ≠ k) :
    dictGet ((cmds.foldl
        (fun st c => add_lang aliases st c.original c.name c.trans c.tts) st)).nonstandard_langs k
      = dictGet st.nonstandard_langs k := by
  induction cmds generalizing st with
  | nil => rfl
  | cons c cs ih =>
    rw [List.foldl_cons, ih (fun x hx => h x (List.mem_cons_of_mem c hx)),
      add_lang_nonstandard_other (h c (List.mem_cons_self c cs))]

/- Registry invariant machinery. -/

/-- After any add_lang sequence every registered code is a fixed point of
normalization and every nonstandard entry maps the normalization of a changed
original back to it. -/
def RegistryInv (aliases : List (String × String)) (st : ProviderState) : Prop :=
  (∀ code ∈ st.languages, normalize_lang_code aliases code = code) ∧
  (∀ code ∈ st.tts_languages, normalize_lang_code aliases code = code) ∧
  (∀ p ∈ st.nonstandard_langs, p.1 ≠ p.2 ∧ p.1 = normalize_lang_code aliases p.2)

theorem registryInv_step {aliases : List (String × String)} {st : ProviderState}
    (htargets : ∀ p ∈ aliases, normalize_lang_code aliases p.2 = p.2)
    (h : RegistryInv aliases st) (c : AddCmd) :
    RegistryInv aliases (add_lang aliases st c.original c.name c.trans c.tts) := by
  obtain ⟨h1, h2, h3⟩ := h
  refine ⟨?_, ?_, ?_⟩
  · intro code hc
    simp only [add_lang] at hc
    split at hc
    · rcases List.mem_append.1 hc with hold | hnew
      · exact h1 code hold
      · rw [List.mem_singleton.1 hnew]
        exact normalize_idem_of_targets htargets c.original
    · exact h1 code hc
  · intro code hc
    simp only [add_lang] at hc
    split at hc
    · rcases List.mem_append.1 hc with hold | hnew
      · exact h2 code hold
      · rw [List.mem_singleton.1 hnew]
        exact normalize_idem_of_targets htargets c.original
    · exact h2 code hc
  · intro p hp
    simp only [add_lang] at hp
    split at hp
    · next hcond =>
      rcases List.mem_append.1 hp with hold | hnew
      · exact h3 p hold
      · rw [List.mem_singleton.1 hnew]
        exact ⟨hcond.1, rfl⟩
    · exact h3 p hp

theorem registryInv_runAdds (aliases : List (String × String)) (cmds : List AddCmd)
    (htargets : ∀ p ∈ aliases, normalize_lang_code aliases p.2 = p.2) :
    RegistryInv aliases (runAdds aliases cmds) := by
  unfold runAdds
  have hbase : RegistryInv aliases emptyProviderState :=
    ⟨fun _ hc => absurd hc (List.not_mem_nil _), fun _ hc => absurd hc (List.not_mem_nil _),
     fun _ hc => absurd hc (List.not_mem_nil _)⟩
  generalize emptyProviderState = st at hbase ⊢
  induction cmds generalizing st with
  | nil => exact hbase
  | cons c cs ih => exact ih _ (registryInv_step htargets hbase c)

/- String append and urlencode helper lemmas. -/

theorem string_data_append (a b : String) : (a ++ b).data = a.data ++ b.data := by
  cases a
  cases b
  rfl

theorem encoded_pair_ne_empty (p : String × String) :
    quote_plus p.1 ++ "=" ++ quote_plus p.2 ≠ "" := by
  intro h
  have := congrArg String.data h
  rw [string_data_append, string_data_append] at this
  simp at this

theorem pyJoin_cons_ne_empty {s : String} (rest : List String) (hs : s ≠ "") :
    pyJoin "&" (s :: rest) ≠ "" := by
  cases rest with
  | nil => exact hs
  | cons t r =>
    intro h
    have := congrArg String.data h
    rw [show pyJoin "&" (s :: t :: r) = s ++ "&" ++ pyJoin "&" (t :: r) from rfl,
      string_data_append, string_data_append] at this
    simp at this

theorem urlencode_ne_empty (p : String × String) (ps : List (String × String)) :
    urlencode (p :: ps) ≠ "" := by
  unfold urlencode
  rw [List.map_cons]
  exact pyJoin_cons_ne_empty _ (encoded_pair_ne_empty p)

/-
Claim theorems.
-/

/-- C1: translate with empty text invokes on_fail exactly once with code
EMPTY and never reaches the transport; translate with non-empty text longer
than chars_limit (chars_limit not being the unlimited sentinel -1) invokes
on_fail exactly once with code CHARACTERS_LIMIT_EXCEEDED without invoking the
transport. (The empty check precedes the limit check, so the limit clause is
stated for non-empty text.) -/
theorem translate_entry_checks (chars_limit : Int) (text : String) :
    (text = "" → translate_trace chars_limit text = [.on_fail .EMPTY]) ∧
    (text ≠ "" → chars_limit ≠ -1 → chars_limit < (text.length : Int) →
      translate_trace chars_limit text = [.on_fail .CHARACTERS_LIMIT_EXCEEDED]) ∧
    TranslateEvent.transport_request ∉ translate_trace chars_limit "" := by
  refine ⟨?_, ?_, ?_⟩
  · intro h
    rw [h]
    simp [translate_trace]
  · intro h1 h2 h3
    unfold translate_trace
    rw [if_neg h1, if_pos ⟨h2, h3⟩]
  · simp [translate_trace]

/-- Witness for C1 at chars_limit 5 with empty text and with 6-char text. -/
theorem translate_entry_checks_witness :
    translate_trace 5 "" = [.on_fail .EMPTY] ∧
    translate_trace 5 "abcdef" = [.on_fail .CHARACTERS_LIMIT_EXCEEDED] :=
  ⟨(translate_entry_checks 5 "").1 rfl,
   (translate_entry_checks 5 "abcdef").2.1 (by decide) (by decide) (by decide)⟩

/-- C2 counterexample: with the merged alias table mapping en to the
non-normalized target zz-zz, normalization is not idempotent at input en. -/
theorem normalize_idem_counterexample :
    normalize_lang_code [("en", "zz-zz")] (normalize_lang_code [("en", "zz-zz")] "en") ≠
      normalize_lang_code [("en", "zz-zz")] "en" := by decide

/-- C2 amended: normalization is idempotent for every input provided every
target of the merged alias table is itself a fixed point of normalization
(what the source docstring of lang_aliases demands of alias values). -/
theorem normalize_idem_on_normalized_targets (aliases : List (String × String))
    (htargets : ∀ p ∈ aliases, normalize_lang_code aliases p.2 = p.2) (x : String) :
    normalize_lang_code aliases (normalize_lang_code aliases x)
      = normalize_lang_code aliases x :=
  normalize_idem_of_targets htargets x

/-- Witness for C2 amended at the table mapping iw to he and input ZH_cn. -/
theorem normalize_idem_on_normalized_targets_witness :
    normalize_lang_code [("iw", "he")] (normalize_lang_code [("iw", "he")] "ZH_cn")
      = normalize_lang_code [("iw", "he")] "ZH_cn" :=
  normalize_idem_on_normalized_targets [("iw", "he")] (by decide) "ZH_cn"

/-- C3 counterexample: ZH_cn and zh_CN both normalize to zh-CN; after adding
both (in that order), the nonstandard map keeps the first original only, so
the round trip fails for the second added original zh_CN although its
normalization changed it. -/
theorem denormalize_roundtrip_counterexample :
    normalize_lang_code [] "zh_CN" ≠ "zh_CN" ∧
    denormalize_lang
        (runAdds [] [⟨"ZH_cn", none, true, false⟩, ⟨"zh_CN", none, true, false⟩]).nonstandard_langs
        [normalize_lang_code [] "zh_CN"]
      = Denorm.single "ZH_cn" ∧
    ("ZH_cn" : String) ≠ "zh_CN" := by decide

/-- C3 amended: in any add_lang sequence, for an added original code whose
normalization changed it and that no earlier add in the sequence collides
with (no earlier added original normalizes to the same code),
denormalize_lang of the normalization returns the original (first-write-wins
makes the first such add the one that sticks). -/
theorem denormalize_roundtrip_first_added (aliases : List (String × String))
    (pre post : List AddCmd) (cmd : AddCmd)
    (hne : normalize_lang_code aliases cmd.original ≠ cmd.original)
    (hpre : ∀ c ∈ pre,
      normalize_lang_code aliases c.original ≠ normalize_lang_code aliases cmd.original) :
    denormalize_lang (runAdds aliases (pre ++ cmd :: post)).nonstandard_langs
        [normalize_lang_code aliases cmd.original]
      = Denorm.single cmd.original := by
  unfold runAdds
  rw [List.foldl_append]
  have h0 : dictGet ((pre.foldl
      (fun st c => add_lang aliases st c.original c.name c.trans c.tts)
      emptyProviderState)).nonstandard_langs (normalize_lang_code aliases cmd.original)
      = none := by
    rw [foldl_nonstandard_untouched hpre]
    rfl
  have h1 := add_lang_nonstandard_create aliases
    (pre.foldl (fun st c => add_lang aliases st c.original c.name c.trans c.tts)
      emptyProviderState)
    cmd.original cmd.name cmd.trans cmd.tts hne h0
  rw [List.foldl_cons]
  have h2 := foldl_nonstandard_preserve aliases post h1
  rw [show ∀ (m : List (String × String)) (c : String),
      denormalize_lang m [c] = Denorm.single ((dictGet m c).getD c) from fun m c => rfl]
  rw [h2]
  rfl

/-- Witness for C3 amended: a single add of ZH_cn with an empty table. -/
theorem denormalize_roundtrip_first_added_witness :
    denormalize_lang (runAdds [] [⟨"ZH_cn", some "Chinese", true, true⟩]).nonstandard_langs
        [normalize_lang_code [] "ZH_cn"]
      = Denorm.single "ZH_cn" :=
  denormalize_roundtrip_first_added [] [] [] ⟨"ZH_cn", some "Chinese", true, true⟩
    (by decide) (fun c hc => absurd hc (List.not_mem_nil c))

/-- C4: normalization replaces underscores by hyphens, lowercases, fixes a
two-part code's second part by length (4 capitalized, 2 upper-cased, others
untouched), and only then applies the alias table; the three concrete
examples hold whenever the merged table does not remap their structural
results (the table folds legacy codes, not canonical ones). -/
theorem normalize_structure_and_examples (aliases : List (String × String)) :
    (dictGet aliases "zh-CN" = none → normalize_lang_code aliases "ZH_cn" = "zh-CN") ∧
    (dictGet aliases "zh-Hans" = none → normalize_lang_code aliases "zh-hans" = "zh-Hans") ∧
    (dictGet aliases "en" = none → normalize_lang_code aliases "EN" = "en") ∧
    (∀ code, normalize_lang_code aliases code
      = (dictGet aliases (structuralNorm code)).getD (structuralNorm code)) := by
  refine ⟨?_, ?_, ?_, ?_⟩
  · intro h
    unfold normalize_lang_code
    rw [show structuralNorm "ZH_cn" = "zh-CN" from by decide, h]
  · intro h
    unfold normalize_lang_code
    rw [show structuralNorm "zh-hans" = "zh-Hans" from by decide, h]
  · intro h
    unfold normalize_lang_code
    rw [show structuralNorm "EN" = "en" from by decide, h]
  · intro code
    unfold normalize_lang_code
    cases dictGet aliases (structuralNorm code) <;> rfl

/-- Witness for C4 at the empty merged table. -/
theorem normalize_structure_and_examples_witness :
    normalize_lang_code [] "ZH_cn" = "zh-CN" ∧
    normalize_lang_code [] "zh-hans" = "zh-Hans" ∧
    normalize_lang_code [] "EN" = "en" :=
  ⟨(normalize_structure_and_examples []).1 rfl,
   (normalize_structure_and_examples []).2.1 rfl,
   (normalize_structure_and_examples []).2.2.1 rfl⟩

/-- C5: denormalize_lang with exactly one code returns a bare string (the
mapped original when the code is in the nonstandard map, else the code); with
any other number of codes it returns a tuple that maps each code elementwise,
preserving order and length. -/
theorem denormalize_arity (m : List (String × String)) (c : String) (codes : List String) :
    denormalize_lang m [c] = Denorm.single ((dictGet m c).getD c) ∧
    (codes.length ≠ 1 →
      denormalize_lang m codes = Denorm.many (codes.map fun x => (dictGet m x).getD x)) := by
  constructor
  · rfl
  · intro h
    cases codes with
    | nil => rfl
    | cons a rest =>
      cases rest with
      | nil => exact absurd rfl h
      | cons b r2 => rfl

/-- Witness for C5: scalar result on one code, pair result on two. -/
theorem denormalize_arity_witness :
    denormalize_lang [("zh-CN", "ZH_cn")] ["zh-CN"] = Denorm.single "ZH_cn" ∧
    denormalize_lang [("zh-CN", "ZH_cn")] ["a", "zh-CN"] = Denorm.many ["a", "ZH_cn"] :=
  ⟨(denormalize_arity [("zh-CN", "ZH_cn")] "zh-CN" ["a", "zh-CN"]).1.trans (by decide),
   ((denormalize_arity [("zh-CN", "ZH_cn")] "zh-CN" ["a", "zh-CN"]).2 (by decide)).trans
     (by decide)⟩

/-- C6 counterexample: with a locale collaborator that knows no names and no
provider-supplied names, get_lang_name of the empty code returns the empty
string, refuting the clause that it never returns an empty string (the
three-tier fallback itself is intact: the code is returned verbatim). -/
theorem get_lang_name_empty_counterexample :
    get_lang_name (fun _ => none) [] "" = "" := rfl

/-- C6 amended: get_lang_name returns the locale-service name when available,
else the provider-supplied name, else the code; it is total (never raises),
and its result is non-empty provided the code is non-empty and the locale
service and stored provider names never yield empty strings. -/
theorem get_lang_name_fallback (localeName : String → Option String)
    (names : List (String × String)) (code : String) :
    (∀ n, localeName code = some n → get_lang_name localeName names code = n) ∧
    (localeName code = none → ∀ n, dictGet names code = some n →
      get_lang_name localeName names code = n) ∧
    (localeName code = none → dictGet names code = none →
      get_lang_name localeName names code = code) ∧
    (code ≠ "" → (∀ c n, localeName c = some n → n ≠ "") → (∀ p ∈ names, p.2 ≠ "") →
      get_lang_name localeName names code ≠ "") := by
  refine ⟨?_, ?_, ?_, ?_⟩
  · intro n h
    unfold get_lang_name
    rw [h]
  · intro h n h2
    unfold get_lang_name
    rw [h, h2]
    rfl
  · intro h h2
    unfold get_lang_name
    rw [h, h2]
    rfl
  · intro hc hl hn
    unfold get_lang_name
    cases h : localeName code with
    | some n => exact hl code n h
    | none =>
      cases h2 : dictGet names code with
      | some n =>
        show n ≠ ""
        exact hn (code, n) (dictGet_mem h2)
      | none => exact hc

/-- Witness for C6 amended: all three tiers and non-emptiness exercised. -/
theorem get_lang_name_fallback_witness :
    get_lang_name (fun c => if c = "fr" then some "French" else none) [("de", "German")] "fr"
      = "French" ∧
    get_lang_name (fun c => if c = "fr" then some "French" else none) [("de", "German")] "de"
      = "German" ∧
    get_lang_name (fun c => if c = "fr" then some "French" else none) [("de", "German")] "xx"
      = "xx" ∧
    get_lang_name (fun c => if c = "fr" then some "French" else none) [("de", "German")] "de"
      ≠ "" := by
  refine ⟨?_, ?_, ?_, ?_⟩
  · exact (get_lang_name_fallback _ [("de", "German")] "fr").1 "French" (by decide)
  · exact (get_lang_name_fallback _ [("de", "German")] "de").2.1 (by decide) "German" (by decide)
  · exact (get_lang_name_fallback _ [("de", "German")] "xx").2.2.1 (by decide) (by decide)
  · refine (get_lang_name_fallback _ [("de", "German")] "de").2.2.2 (by decide) ?_ (by decide)
    intro c n h
    by_cases hcf : c = "fr"
    · rw [if_pos hcf] at h
      injection h with h1
      rw [← h1]
      decide
    · rw [if_neg hcf] at h
      cases h

/-- C7: format_url composes scheme, host, slash-ensured path and the query
part; the scheme is http exactly for port-qualified localhost hosts or a set
http flag, https otherwise; the path part always begins with a slash; a
question mark plus the ampersand-joined encoded parameters is appended only
for a non-empty parameter dict; the two concrete compositions of the spec
hold. -/
theorem format_url_spec (url path : String) (params : List (String × String)) (http : Bool) :
    format_url url path params http =
      (if pyStartsWith url "localhost:" || http then "http://" else "https://") ++ url ++
      (if pyStartsWith path "/" then path else "/" ++ path) ++
      (if params = [] then "" else "?" ++ urlencode params) ∧
    pyStartsWith (if pyStartsWith path "/" then path else "/" ++ path) "/" = true ∧
    format_url "libretranslate.com" "translate" [("q", "hi")] false
      = "https://libretranslate.com/translate?q=hi" ∧
    format_url "localhost:5000" "detect" [] false = "http://localhost:5000/detect" := by
  refine ⟨?_, ?_, by decide, by decide⟩
  · cases params with
    | nil => rfl
    | cons p ps =>
      simp only [format_url]
      rw [if_neg (urlencode_ne_empty p ps), if_neg (by simp : ¬(p :: ps = []))]
  · by_cases hp : pyStartsWith path "/"
    · rw [if_pos hp]
      exact hp
    · rw [if_neg hp]
      show List.isPrefixOf "/".data ("/" ++ path).data = true
      rw [string_data_append]
      simp [List.isPrefixOf]

/-- C8: when the stored src-langs value is empty (get_strv also yields the
empty list for an unset key), the src_langs accessor returns exactly the
default en, fr, es, de; and after reset_src_langs, which writes the empty
list back, it returns the same default again. -/
theorem src_langs_default_and_reset (store : SettingsStore) :
    (store.src_langs_stored = [] → src_langs store = ["en", "fr", "es", "de"]) ∧
    src_langs (reset_src_langs store) = ["en", "fr", "es", "de"] := by
  constructor
  · intro h
    unfold src_langs
    rw [h]
    rfl
  · rfl

/-- Witness for C8: the empty store and a reset of a non-empty store. -/
theorem src_langs_default_and_reset_witness :
    src_langs (SettingsStore.mk []) = ["en", "fr", "es", "de"] ∧
    src_langs (reset_src_langs (SettingsStore.mk ["it"])) = ["en", "fr", "es", "de"] :=
  ⟨(src_langs_default_and_reset (SettingsStore.mk [])).1 rfl,
   (src_langs_default_and_reset (SettingsStore.mk ["it"])).2⟩

/-- C9 counterexample: with the merged alias table mapping en to the
non-normalized target zz-zz, adding en registers zz-zz in languages, which is
not a fixed point of normalization. -/
theorem registry_normalized_counterexample :
    "zz-zz" ∈ (runAdds [("en", "zz-zz")] [⟨"en", none, true, false⟩]).languages ∧
    normalize_lang_code [("en", "zz-zz")] "zz-zz" ≠ "zz-zz" := by decide

/-- C9 amended: provided every target of the merged alias table is a fixed
point of normalization, after any add_lang sequence on a fresh provider every
code in languages and tts_languages is a fixed point of normalize_lang_code,
and every nonstandard entry has a key that differs from its stored original
and equals that original's normalization. -/
theorem registry_invariant (aliases : List (String × String)) (cmds : List AddCmd)
    (htargets : ∀ p ∈ aliases, normalize_lang_code aliases p.2 = p.2) :
    (∀ code ∈ (runAdds aliases cmds).languages, normalize_lang_code aliases code = code) ∧
    (∀ code ∈ (runAdds aliases cmds).tts_languages, normalize_lang_code aliases code = code) ∧
    (∀ p ∈ (runAdds aliases cmds).nonstandard_langs,
      p.1 ≠ p.2 ∧ p.1 = normalize_lang_code aliases p.2) :=
  registryInv_runAdds aliases cmds htargets

/-- Witness for C9 amended: one add of ZH_cn under the table mapping iw to
he; the registered code zh-CN is normalized and the nonstandard entry maps it
to ZH_cn. -/
theorem registry_invariant_witness :
    normalize_lang_code [("iw", "he")] "zh-CN" = "zh-CN" ∧
    ("zh-CN" : String) ≠ "ZH_cn" ∧
    ("zh-CN" : String) = normalize_lang_code [("iw", "he")] "ZH_cn" := by
  have h := registry_invariant [("iw", "he")] [⟨"ZH_cn", some "Chinese", true, true⟩] (by decide)
  have hm : ("zh-CN", "ZH_cn")
      ∈ (runAdds [("iw", "he")] [⟨"ZH_cn", some "Chinese", true, true⟩]).nonstandard_langs := by
    decide
  exact ⟨h.1 "zh-CN" (by decide), (h.2.2 _ hm).1, (h.2.2 _ hm).2⟩

/-- C10: add_lang with both flags false leaves languages and tts_languages
unchanged, yet still records the nonstandard mapping when normalization
changed the code and none exists, and the provider-supplied name when given
and none exists. -/
theorem add_lang_no_flags_frame (aliases : List (String × String)) (st : ProviderState)
    (o : String) (name : Option String) :
    (add_lang aliases st o name false false).languages = st.languages ∧
    (add_lang aliases st o name false false).tts_languages = st.tts_languages ∧
    (normalize_lang_code aliases o ≠ o →
      dictGet st.nonstandard_langs (normalize_lang_code aliases o) = none →
      (add_lang aliases st o name false false).nonstandard_langs
        = st.nonstandard_langs ++ [(normalize_lang_code aliases o, o)]) ∧
    (∀ n, name = some n →
      dictGet st.languages_names (normalize_lang_code aliases o) = none →
      (add_lang aliases st o name false false).languages_names
        = st.languages_names ++ [(normalize_lang_code aliases o, n)]) := by
  refine ⟨rfl, rfl, ?_, ?_⟩
  · intro h1 h2
    simp only [add_lang]
    rw [if_pos ⟨h1, h2⟩]
  · intro n hn h2
    simp only [add_lang, hn]
    rw [if_pos h2]

/-- Witness for C10: adding ZH_cn with a name and both flags false. -/
theorem add_lang_no_flags_frame_witness :
    (add_lang [] emptyProviderState "ZH_cn" (some "Chinese") false false).languages = [] ∧
    (add_lang [] emptyProviderState "ZH_cn" (some "Chinese") false false).tts_languages = [] ∧
    (add_lang [] emptyProviderState "ZH_cn" (some "Chinese") false false).nonstandard_langs
      = [("zh-CN", "ZH_cn")] ∧
    (add_lang [] emptyProviderState "ZH_cn" (some "Chinese") false false).languages_names
      = [("zh-CN", "Chinese")] := by
  have h := add_lang_no_flags_frame [] emptyProviderState "ZH_cn" (some "Chinese")
  refine ⟨h.1, h.2.1, ?_, ?_⟩
  · exact (h.2.2.1 (by decide) rfl).trans (by decide)
  · exact (h.2.2.2 "Chinese" rfl rfl).trans (by decide)
